import Mathlib

/-!
# Dashboard: filtering, option derivation and chart aggregation

A shallow embedding of the pure core of `src/src/Dashboard.jsx`:

* the option lists built in `fetchData` (`[...new Set(...)].sort()`),
* `applyFilters`, the seven chained `Array.prototype.filter` stages,
* the six chart aggregators.

JavaScript values that a record field can hold are modelled by `JsVal`.
Strings are Lean strings (well-formed Unicode), numbers in dimension fields
are integers (the safe-integer range, where `Number.prototype.toString` is
the decimal numeral).  The three scores are doubles, `F64`: a finite double is
given by its exact rational value, and `+` and `/` on them round to the
nearest double, ties to even, as IEEE 754 arithmetic does.  A thrown
`TypeError` is the `error` branch of `Except`.  Colours are left out: they
are random and belong to rendering.
-/

namespace Dashboard

/-! ## Values, records, criteria -/

/-- A value read from a record field: `undefined` when the key is missing. -/
inductive JsVal where
  | undefined
  | null
  | num (n : Int)
  | str (s : String)
  deriving DecidableEq, Repr

/-- The only exception the modelled code can throw. -/
inductive JsError where
  | typeError
  deriving DecidableEq, Repr

deriving instance DecidableEq for Except

/-- A number of the engine (an IEEE 754 double): not-a-number, an infinity with
its sign, or a finite value given exactly.  The two zeros are not told apart.
A record field holds a number parsed from JSON, hence a double: `fin q` is
meant for the rationals `q` that are doubles, and every result of the
arithmetic below is one. -/
inductive F64 where
  | nan
  | inf (negative : Bool)
  | fin (q : ℚ)
  deriving DecidableEq

/-- One element of the fetched array, with the ten keys the dashboard reads: the
seven dimensions and the three numeric scores. -/
structure Record where
  end_year : JsVal
  topic : JsVal
  region : JsVal
  country : JsVal
  pestle : JsVal
  source : JsVal
  sector : JsVal
  intensity : F64
  relevance : F64
  likelihood : F64
  deriving DecidableEq

/-- The `filters` state: one string per dimension, the empty string meaning no constraint. -/
structure Filters where
  endYear : String
  topic : String
  region : String
  country : String
  pestle : String
  source : String
  sector : String
  deriving DecidableEq, Repr

/-- The initial `filters` state of the component (lines 13-21). -/
def initialFilters : Filters :=
  { endYear := "", topic := "", region := "", country := "",
    pestle := "", source := "", sector := "" }

/-- The seven filterable dimensions. -/
inductive Dim where
  | endYear | topic | region | country | pestle | source | sector
  deriving DecidableEq, Repr, Fintype

/-- The record key read for a dimension. -/
def Record.get (r : Record) : Dim → JsVal
  | .endYear => r.end_year
  | .topic => r.topic
  | .region => r.region
  | .country => r.country
  | .pestle => r.pestle
  | .source => r.source
  | .sector => r.sector

/-- The criterion stored for a dimension. -/
def Filters.get (f : Filters) : Dim → String
  | .endYear => f.endYear
  | .topic => f.topic
  | .region => f.region
  | .country => f.country
  | .pestle => f.pestle
  | .source => f.source
  | .sector => f.sector

/-- What `setFilters({ ...filters, [name]: value })` stores (line 64). -/
def Filters.set (f : Filters) (d : Dim) (value : String) : Filters :=
  match d with
  | .endYear => { f with endYear := value }
  | .topic => { f with topic := value }
  | .region => { f with region := value }
  | .country => { f with country := value }
  | .pestle => { f with pestle := value }
  | .source => { f with source := value }
  | .sector => { f with sector := value }

/-! ## String primitives -/

/-- Substring search on character lists, as `String.prototype.includes` scans:
try the needle at the current position, then move one position on. -/
def includesL (needle : List Char) : List Char → Bool
  | [] => needle.isPrefixOf []
  | c :: hay => needle.isPrefixOf (c :: hay) || includesL needle hay

/-- The call `hay.includes(needle)`. -/
def includes (hay needle : String) : Bool :=
  includesL needle.data hay.data

/-- A lower-casing that maps only `A`-`Z`; used to run the model on examples.
The engine's `toLowerCase` also maps cased letters outside ASCII, so the
definitions below take the case mapping as the argument `lower`. -/
def asciiLower (s : String) : String :=
  ⟨s.data.map Char.toLower⟩

/-- The method call `v.toString()`: throws on `undefined` and `null`. -/
def JsVal.toStringMethod : JsVal → Except JsError String
  | .num n => .ok (toString n)
  | .str s => .ok s
  | .undefined => .error .typeError
  | .null => .error .typeError

/-- The method call `v.toLowerCase()`: only strings have the method. -/
def JsVal.toLowerCase (lower : String → String) : JsVal → Except JsError String
  | .str s => .ok (lower s)
  | .num _ => .error .typeError
  | .undefined => .error .typeError
  | .null => .error .typeError

/-! ## The filter engine -/

/-- The call `xs.filter(p)` with a callback that may throw: the callback runs
on the elements from left to right and the first exception aborts the call. -/
def filterE {α : Type} (p : α → Except JsError Bool) : List α → Except JsError (List α)
  | [] => .ok []
  | x :: xs =>
    match p x with
    | .error e => .error e
    | .ok b =>
      match filterE p xs with
      | .error e => .error e
      | .ok ys => .ok (if b then x :: ys else ys)

/-- One `if (criterion) { filtered = filtered.filter(p) }` block. -/
def stage (criterion : String) (p : Record → Except JsError Bool)
    (filtered : List Record) : Except JsError (List Record) :=
  if criterion ≠ "" then filterE p filtered else .ok filtered

/-- The callback of line 72: `item.end_year.toString() === filters.endYear`. -/
def endYearPred (filters : Filters) (item : Record) : Except JsError Bool :=
  match item.end_year.toStringMethod with
  | .error e => .error e
  | .ok s => .ok (decide (s = filters.endYear))

/-- The callback of lines 75-90 for a string dimension `d`:
`item.d.toLowerCase().includes(filters.d.toLowerCase())`. -/
def substrPred (lower : String → String) (filters : Filters) (d : Dim)
    (item : Record) : Except JsError Bool :=
  match (item.get d).toLowerCase lower with
  | .error e => .error e
  | .ok s => .ok (includes s (lower (filters.get d)))

/-- The callback of the stage of dimension `d`. -/
def dimPred (lower : String → String) (filters : Filters) : Dim → Record → Except JsError Bool
  | .endYear => endYearPred filters
  | d => substrPred lower filters d

/-- The function `applyFilters` (lines 68-94) on `data` and `filters`; the value
is what it passes to `setFilteredData`, or the exception it throws. -/
def applyFilters (lower : String → String) (data : List Record) (filters : Filters) :
    Except JsError (List Record) :=
  stage filters.endYear (endYearPred filters) data >>= fun filtered =>
  stage filters.topic (substrPred lower filters .topic) filtered >>= fun filtered =>
  stage filters.region (substrPred lower filters .region) filtered >>= fun filtered =>
  stage filters.country (substrPred lower filters .country) filtered >>= fun filtered =>
  stage filters.pestle (substrPred lower filters .pestle) filtered >>= fun filtered =>
  stage filters.source (substrPred lower filters .source) filtered >>= fun filtered =>
  stage filters.sector (substrPred lower filters .sector) filtered

/-- The dimensions in the order in which `applyFilters` visits them. -/
def stageOrder : List Dim :=
  [.endYear, .topic, .region, .country, .pestle, .source, .sector]

/-- Running the stages of the listed dimensions one after the other. -/
def runStages (lower : String → String) (filters : Filters) :
    List Dim → List Record → Except JsError (List Record)
  | [], filtered => .ok filtered
  | d :: ds, filtered =>
    match stage (filters.get d) (dimPred lower filters d) filtered with
    | .error e => .error e
    | .ok next => runStages lower filters ds next

/-! ## Option derivation -/

/-- Adding a value to a `Set`: kept in insertion order, no duplicate. -/
def setAdd {α : Type} [DecidableEq α] (s : List α) (x : α) : List α :=
  if x ∈ s then s else s ++ [x]

/-- The array `[...new Set(xs)]`: the distinct values in first-seen order. -/
def newSet {α : Type} [DecidableEq α] (xs : List α) : List α :=
  xs.foldl setAdd []

/-- The UTF-16 code units of one character. -/
def utf16 (c : Char) : List Nat :=
  if c.toNat < 0x10000 then [c.toNat]
  else [0xD800 + (c.toNat - 0x10000) / 0x400, 0xDC00 + (c.toNat - 0x10000) % 0x400]

/-- The UTF-16 code units of a string, the sequence `<` on strings compares. -/
def codeUnits (s : String) : List Nat :=
  s.data.flatMap utf16

/-- Lexicographic `≤` on code-unit sequences. -/
def unitsLe : List Nat → List Nat → Bool
  | [], _ => true
  | _ :: _, [] => false
  | a :: as, b :: bs => decide (a < b) || (decide (a = b) && unitsLe as bs)

/-- The abstract operation `ToString` that the default sort applies. -/
def JsVal.toStr : JsVal → String
  | .undefined => "undefined"
  | .null => "null"
  | .num n => toString n
  | .str s => s

/-- The default comparison of `Array.prototype.sort()`, as "`a` may stand before
`b`": `undefined` goes last, everything else is compared as strings. -/
def sortLe (a b : JsVal) : Bool :=
  match a, b with
  | _, .undefined => true
  | .undefined, _ => false
  | a, b => unitsLe (codeUnits a.toStr) (codeUnits b.toStr)

/-- The call `xs.sort()` with no comparator (a stable sort). -/
def jsSort (xs : List JsVal) : List JsVal :=
  xs.insertionSort (fun a b => sortLe a b = true)

/-- The option list of one dimension (lines 45-51):
`[...new Set(result.map(item => item.d))].sort()`. -/
def optionsOf (result : List Record) (d : Dim) : List JsVal :=
  jsSort (newSet (result.map (fun item => item.get d)))

/-- The `filterOptions` state. -/
structure FilterOptions where
  endYearOptions : List JsVal
  topicOptions : List JsVal
  regionOptions : List JsVal
  countryOptions : List JsVal
  pestleOptions : List JsVal
  sourceOptions : List JsVal
  sectorOptions : List JsVal
  deriving DecidableEq

/-- The object passed to `setFilterOptions` in `fetchData` (lines 44-52). -/
def deriveFilterOptions (result : List Record) : FilterOptions :=
  { endYearOptions := jsSort (newSet (result.map (fun item => item.end_year)))
    topicOptions := jsSort (newSet (result.map (fun item => item.topic)))
    regionOptions := jsSort (newSet (result.map (fun item => item.region)))
    countryOptions := jsSort (newSet (result.map (fun item => item.country)))
    pestleOptions := jsSort (newSet (result.map (fun item => item.pestle)))
    sourceOptions := jsSort (newSet (result.map (fun item => item.source)))
    sectorOptions := jsSort (newSet (result.map (fun item => item.sector))) }

/-- The option list of a dimension in the `filterOptions` state. -/
def FilterOptions.get (o : FilterOptions) : Dim → List JsVal
  | .endYear => o.endYearOptions
  | .topic => o.topicOptions
  | .region => o.regionOptions
  | .country => o.countryOptions
  | .pestle => o.pestleOptions
  | .source => o.sourceOptions
  | .sector => o.sectorOptions

/-- The `value` a chosen `<option value={option}>` hands to `handleFilterChange`:
the attribute is the text of the option value. -/
def optionText : JsVal → String
  | .str s => s
  | .num n => toString n
  | .undefined => ""
  | .null => ""

/-! ## Aggregators -/

/-- One dataset of a chart: its legend label, when the code sets one, and its values. -/
structure Dataset (V : Type) where
  label : Option String
  data : List V
  deriving DecidableEq

/-- The object handed to a line, bar or doughnut chart. -/
structure ChartData (V : Type) where
  labels : List JsVal
  datasets : List (Dataset V)
  deriving DecidableEq

/-- The function `getLineChartData` (lines 103-114). -/
def getLineChartData (filteredData : List Record) : ChartData F64 :=
  { labels := filteredData.map (fun item => item.end_year)
    datasets := [{ label := some "Intensity"
                   data := filteredData.map (fun item => item.intensity) }] }

/-- The function `getBarChartData` (lines 116-127). -/
def getBarChartData (filteredData : List Record) : ChartData F64 :=
  { labels := filteredData.map (fun item => item.end_year)
    datasets := [{ label := some "Relevance"
                   data := filteredData.map (fun item => item.relevance) }] }

/-- The function `getDoughnutChartData` (lines 129-144); its dataset sets no `label`. -/
def getDoughnutChartData (filteredData : List Record) : ChartData Nat :=
  let regions := newSet (filteredData.map (fun item => item.region))
  let regionCounts := regions.map
    (fun region => (filteredData.filter (fun item => item.region = region)).length)
  { labels := regions
    datasets := [{ label := none, data := regionCounts }] }

/-- The function `getTopicChartData` (lines 146-162). -/
def getTopicChartData (filteredData : List Record) : ChartData Nat :=
  let topics := newSet (filteredData.map (fun item => item.topic))
  let topicCounts := topics.map
    (fun topic => (filteredData.filter (fun item => item.topic = topic)).length)
  { labels := topics
    datasets := [{ label := some "Topics", data := topicCounts }] }

/-- A bubble: `y` and `r` read `sourceCounts[index]`, which is `none` when the
index is out of range (`undefined`, and `undefined * 2` is not a number). -/
structure BubblePoint where
  x : Nat
  y : Option Nat
  r : Option Nat
  deriving DecidableEq, Repr

/-- One series of the bubble chart. -/
structure BubbleSeries where
  label : JsVal
  data : List BubblePoint
  deriving DecidableEq, Repr

/-- The function `getBubbleChartData` (lines 164-181): its `datasets`. -/
def getBubbleChartData (filteredData : List Record) : List BubbleSeries :=
  let sources := newSet (filteredData.map (fun item => item.source))
  let sourceCounts := sources.map
    (fun source => (filteredData.filter (fun item => item.source = source)).length)
  sources.mapIdx (fun index source =>
    { label := source
      data := [{ x := index + 1
                 y := sourceCounts[index]?
                 r := sourceCounts[index]?.map (fun n => n * 2) }] })

/-! ### Double arithmetic -/

/-- The natural number nearest to the fraction `n / d`, ties to the even one. -/
def roundHalfEven (n d : Nat) : Nat :=
  if 2 * (n % d) < d then n / d
  else if d < 2 * (n % d) then n / d + 1
  else if n / d % 2 = 0 then n / d else n / d + 1

/-- Halving `n` until it is below 2, counting the steps; `fuel` bounds the steps. -/
def log2Aux : Nat → Nat → Nat
  | 0, _ => 0
  | fuel + 1, n => if 2 ≤ n then log2Aux fuel (n / 2) + 1 else 0

/-- The position of the leading bit of `n`: the floor of its binary logarithm. -/
def ilog2 (n : Nat) : Nat :=
  log2Aux n n

/-- The floor of the binary logarithm of the fraction `p / d`, for positive `p`
and `d`: the difference of the leading-bit positions, or one less. -/
def floorLog2 (p d : Nat) : Int :=
  if ilog2 d ≤ ilog2 p then
    (if d * 2 ^ (ilog2 p - ilog2 d) ≤ p then ((ilog2 p - ilog2 d : Nat) : Int)
     else ((ilog2 p - ilog2 d : Nat) : Int) - 1)
  else
    (if d ≤ p * 2 ^ (ilog2 d - ilog2 p) then -((ilog2 d - ilog2 p : Nat) : Int)
     else -((ilog2 d - ilog2 p : Nat) : Int) - 1)

/-- Rounding the positive fraction `p / d` to a double: the exponent `e` of the
value (at least -1022, below which doubles are subnormal), the exponent
`s = e - 52` of the unit in the last place, and the significand `m`, the
multiple of that unit nearest to `p / d`, ties to even.  The result is the
pair `(m, s)` standing for `m * 2 ^ s`, or `none` when the rounded value
reaches `2 ^ 1024` and overflows. -/
def roundMag (p d : Nat) : Option (Nat × Int) :=
  let e := max (floorLog2 p d) (-1022)
  let s := e - 52
  let m := if 0 ≤ s then roundHalfEven p (d * 2 ^ s.toNat)
    else roundHalfEven (p * 2 ^ (-s).toNat) d
  if 1023 < e ∨ (e = 1023 ∧ m = 2 ^ 53) then none else some (m, s)

/-- The rational `m * 2 ^ s`. -/
def scale (m : Nat) (s : Int) : ℚ :=
  if 0 ≤ s then ((m * 2 ^ s.toNat : Nat) : ℚ) else (m : ℚ) / ((2 ^ (-s).toNat : Nat) : ℚ)

/-- The double nearest to the rational `q` (round to nearest, ties to even),
an infinity on overflow. -/
def roundF64 (q : ℚ) : F64 :=
  if q = 0 then .fin 0
  else
    match roundMag q.num.natAbs q.den with
    | none => .inf (decide (q < 0))
    | some (m, s) => .fin (if q < 0 then -scale m s else scale m s)

/-- The sum `a + b` of two numbers. -/
def F64.add : F64 → F64 → F64
  | .nan, _ => .nan
  | _, .nan => .nan
  | .inf a, .inf b => if a = b then .inf a else .nan
  | .inf a, .fin _ => .inf a
  | .fin _, .inf b => .inf b
  | .fin x, .fin y => roundF64 (x + y)

/-- The quotient `total / length`, where `length` is the length of an array
(a non-negative integer below `2 ^ 32`, so a double). -/
def jsDiv (total : F64) (length : Nat) : F64 :=
  match total with
  | .nan => .nan
  | .inf negative => .inf negative
  | .fin t =>
    if length = 0 then (if t = 0 then .nan else .inf (decide (t < 0)))
    else roundF64 (t / (length : ℚ))

/-- The function `getCountryLikelihoodLineChartData` (lines 183-203). -/
def getCountryLikelihoodLineChartData (filteredData : List Record) : ChartData F64 :=
  let countries := newSet (filteredData.map (fun item => item.country))
  let likelihoods := countries.map (fun country =>
    let countryData := filteredData.filter (fun item => item.country = country)
    let totalLikelihood := countryData.foldl (fun sum item => F64.add sum item.likelihood)
      (.fin 0)
    jsDiv totalLikelihood countryData.length)
  { labels := countries
    datasets := [{ label := some "Likelihood", data := likelihoods }] }

/-! ## Well-formed records and the stated filter predicate -/

/-- The value is a number. -/
def JsVal.isNum : JsVal → Bool
  | .num _ => true
  | _ => false

/-- The value is a string. -/
def JsVal.isStr : JsVal → Bool
  | .str _ => true
  | _ => false

/-- All seven dimension fields are present with the type of the data model:
`end_year` a number or a string (the empty string where no year is given),
the six categorical fields strings. -/
def WellFormed (r : Record) : Prop :=
  (r.end_year.isNum = true ∨ r.end_year.isStr = true) ∧
    ∀ d : Dim, d ≠ .endYear → (r.get d).isStr = true

/-- The predicate of one dimension as the specification words it: for `endYear`
the year converted to text equals the criterion; for the other dimensions the
lower-cased criterion occurs in the lower-cased value as a substring. -/
def Matches (lower : String → String) (c : Filters) (r : Record) : Dim → Prop
  | .endYear => r.end_year.toStr = c.endYear
  | d => (lower (c.get d)).data <:+: (lower (r.get d).toStr).data

/-- The record satisfies every non-empty criterion. -/
def Satisfies (lower : String → String) (c : Filters) (r : Record) : Prop :=
  ∀ d : Dim, c.get d = "" ∨ Matches lower c r d

instance (lower : String → String) (c : Filters) (r : Record) (d : Dim) :
    Decidable (Matches lower c r d) := by
  cases d <;> unfold Matches <;> infer_instance

instance (lower : String → String) (c : Filters) (r : Record) :
    Decidable (Satisfies lower c r) := by
  unfold Satisfies; infer_instance

instance (r : Record) : Decidable (WellFormed r) := by
  unfold WellFormed; infer_instance

/-! ## Auxiliary predicates for the proofs -/

/-- A record passes the listed stages: each active stage's callback returns `true`. -/
def passes (lower : String → String) (filters : Filters) (ds : List Dim) (r : Record) : Bool :=
  ds.all (fun d => decide (filters.get d = "") || decide (dimPred lower filters d r = .ok true))

/-- The labels and counts are a grouping of `fd` by `key`: one label per distinct
key value, an index-aligned count of the records having that key value, and
counts that add up to the number of records. -/
def GroupCounts (key : Record → JsVal) (fd : List Record) (labels : List JsVal)
    (counts : List Nat) : Prop :=
  labels.Nodup ∧ (∀ v, v ∈ labels ↔ ∃ r ∈ fd, key r = v) ∧
    counts.length = labels.length ∧
    (∀ (i : Nat) (v : JsVal), labels[i]? = some v →
      counts[i]? = some (fd.countP (fun r => decide (key r = v)))) ∧
    counts.sum = fd.length

/-! ## Sample data -/

/-- A record with the given dimension values and likelihood; pestle, sector,
intensity and relevance are those of the first record of the scenario. -/
def mkRecord (year : JsVal) (topic region country source : String) (likelihood : ℚ) : Record :=
  { end_year := year, topic := .str topic, region := .str region, country := .str country,
    pestle := .str "P", source := .str source, sector := .str "Tech",
    intensity := .fin 5, relevance := .fin 3, likelihood := .fin likelihood }

/-- The first record of the scenario of the specification. -/
def recChina : Record := mkRecord (.num 2020) "energy" "Asia" "China" "S1" 40

/-- The second record of the scenario of the specification. -/
def recFrance : Record :=
  { mkRecord (.num 2021) "energy" "Europe" "France" "S2" 60 with
    intensity := .fin 7, relevance := .fin 4 }

/-- A second record for China, with likelihood 60. -/
def recChina60 : Record := mkRecord (.num 2021) "energy" "Asia" "China" "S2" 60

/-- A record of the scenario whose `country` key is missing. -/
def recNoCountry : Record := { recChina with country := .undefined }

/-- A record of the scenario with the three-digit end year 999. -/
def recYear999 : Record := { recChina with end_year := .num 999 }

/-- A record for China with end year 2020 and likelihood 1. -/
def recOneA : Record := mkRecord (.num 2020) "energy" "Asia" "China" "S1" 1

/-- A record for China with end year 2021 and likelihood 1. -/
def recOneB : Record := mkRecord (.num 2021) "energy" "Asia" "China" "S1" 1

/-- A record for China with end year 2022 and likelihood 2. -/
def recTwo : Record := mkRecord (.num 2022) "energy" "Asia" "China" "S1" 2

/-! ## Lemmas on the filter engine -/

theorem filterE_eq_filter {α : Type} (p : α → Except JsError Bool) (q : α → Bool) (l : List α)
    (h : ∀ x ∈ l, p x = .ok (q x)) : filterE p l = .ok (l.filter q) := by
  induction l with
  | nil => rfl
  | cons x xs ih =>
    have hx := h x (List.mem_cons_self x xs)
    have hxs := ih (fun y hy => h y (List.mem_cons_of_mem x hy))
    simp only [filterE, hx, hxs, List.filter_cons]

theorem filterE_ok_mem {α : Type} (p : α → Except JsError Bool) :
    ∀ (l out : List α), filterE p l = .ok out → out.Sublist l ∧ ∀ x ∈ out, p x = .ok true := by
  intro l
  induction l with
  | nil =>
    intro out h
    simp only [filterE, Except.ok.injEq] at h
    subst h
    simp
  | cons x xs ih =>
    intro out h
    simp only [filterE] at h
    cases hp : p x with
    | error e => simp [hp] at h
    | ok b =>
      cases hr : filterE p xs with
      | error e => simp [hp, hr] at h
      | ok ys =>
        obtain ⟨hsub, hall⟩ := ih ys hr
        simp only [hp, hr, Except.ok.injEq] at h
        subst h
        cases b with
        | false => exact ⟨by simpa using hsub.cons x, by simpa using hall⟩
        | true =>
          refine ⟨by simpa using hsub.cons₂ x, ?_⟩
          intro y hy
          simp only [if_true, List.mem_cons] at hy
          rcases hy with rfl | hy
          · exact hp
          · exact hall y hy

theorem filterE_error {α : Type} (p : α → Except JsError Bool) (l : List α) (x : α)
    (hx : x ∈ l) (hp : p x = .error .typeError) : filterE p l = .error .typeError := by
  cases h : filterE p l with
  | error e => cases e; rfl
  | ok out =>
    exfalso
    induction l generalizing out with
    | nil => simp at hx
    | cons y ys ih =>
      simp only [filterE] at h
      cases hy : p y with
      | error e => simp [hy] at h
      | ok b =>
        cases hr : filterE p ys with
        | error e => simp [hy, hr] at h
        | ok zs =>
          rcases List.mem_cons.1 hx with rfl | hmem
          · rw [hp] at hy; cases hy
          · exact ih hmem zs hr

theorem applyFilters_eq_runStages (lower : String → String) (data : List Record)
    (filters : Filters) :
    applyFilters lower data filters = runStages lower filters stageOrder data := by
  simp only [applyFilters, runStages, stageOrder, Filters.get, dimPred, bind, Except.bind]
  repeat' split
  all_goals first | rfl | simp_all

/-! ## Lemmas on the chain of stages -/

theorem runStages_eq_filter (lower : String → String) (filters : Filters) (ds : List Dim) :
    ∀ l : List Record,
      (∀ x ∈ l, ∀ d ∈ ds, filters.get d ≠ "" → ∃ b, dimPred lower filters d x = .ok b) →
      runStages lower filters ds l = .ok (l.filter (passes lower filters ds)) := by
  induction ds with
  | nil =>
    intro l _
    have hall : l.filter (passes lower filters []) = l :=
      List.filter_eq_self.2 (fun x _ => by simp [passes])
    simp [runStages, hall]
  | cons d ds ih =>
    intro l h
    by_cases hd : filters.get d = ""
    · have hrest := ih l (fun x hx d' hd' => h x hx d' (List.mem_cons_of_mem d hd'))
      simp only [runStages, stage, hd, ne_eq, not_true_eq_false, if_false, hrest]
      congr 1
      apply List.filter_congr
      intro x _
      simp [passes, hd]
    · have hstage : filterE (dimPred lower filters d) l
          = .ok (l.filter (fun x => decide (dimPred lower filters d x = .ok true))) := by
        apply filterE_eq_filter
        intro x hx
        obtain ⟨b, hb⟩ := h x hx d (List.mem_cons_self d ds) hd
        rw [hb]
        cases b <;> simp
      have hrest := ih (l.filter (fun x => decide (dimPred lower filters d x = .ok true)))
        (fun x hx d' hd' => h x (List.mem_of_mem_filter hx) d' (List.mem_cons_of_mem d hd'))
      simp only [runStages, stage, ne_eq, hd, not_false_eq_true, if_true, hstage, hrest]
      congr 1
      rw [List.filter_filter]
      apply List.filter_congr
      intro x _
      simp [passes, hd, Bool.and_comm]

theorem runStages_ok_mem (lower : String → String) (filters : Filters) (ds : List Dim) :
    ∀ (l out : List Record), runStages lower filters ds l = .ok out →
      out.Sublist l ∧
        ∀ x ∈ out, ∀ d ∈ ds, filters.get d ≠ "" → dimPred lower filters d x = .ok true := by
  induction ds with
  | nil =>
    intro l out h
    simp only [runStages, Except.ok.injEq] at h
    subst h
    simp
  | cons d ds ih =>
    intro l out h
    simp only [runStages] at h
    cases hs : stage (filters.get d) (dimPred lower filters d) l with
    | error e => simp [hs] at h
    | ok next =>
      simp only [hs] at h
      obtain ⟨hsub, hall⟩ := ih next out h
      by_cases hd : filters.get d = ""
      · simp only [stage, hd, ne_eq, not_true_eq_false, if_false, Except.ok.injEq] at hs
        subst hs
        refine ⟨hsub, ?_⟩
        intro x hx d' hd' hne
        rcases List.mem_cons.1 hd' with rfl | hmem
        · exact absurd hd hne
        · exact hall x hx d' hmem hne
      · simp only [stage, ne_eq, hd, not_false_eq_true, if_true] at hs
        obtain ⟨hsub', hall'⟩ := filterE_ok_mem _ l next hs
        refine ⟨hsub.trans hsub', ?_⟩
        intro x hx d' hd' hne
        rcases List.mem_cons.1 hd' with rfl | hmem
        · exact hall' x (hsub.subset hx)
        · exact hall x hx d' hmem hne

theorem runStages_error (lower : String → String) (filters : Filters) (d : Dim) (r : Record)
    (hr : dimPred lower filters d r = .error .typeError) (hd : filters.get d ≠ "") :
    ∀ (ds : List Dim) (l : List Record), d ∈ ds → r ∈ l →
      (∀ d' ∈ ds, d' ≠ d → filters.get d' = "") →
      runStages lower filters ds l = .error .typeError := by
  intro ds
  induction ds with
  | nil => intro l hmem; simp at hmem
  | cons d' ds ih =>
    intro l hmem hl hothers
    by_cases hdd : d' = d
    · subst hdd
      have hs : stage (filters.get d') (dimPred lower filters d') l = .error .typeError := by
        simp only [stage, ne_eq, hd, not_false_eq_true, if_true]
        exact filterE_error _ l r hl hr
      simp [runStages, hs]
    · have hempty := hothers d' (List.mem_cons_self d' ds) hdd
      have hmem' : d ∈ ds := by
        rcases List.mem_cons.1 hmem with h | h
        · exact absurd h.symm hdd
        · exact h
      simp only [runStages, stage, hempty, ne_eq, not_true_eq_false, if_false]
      exact ih l hmem' hl (fun e he => hothers e (List.mem_cons_of_mem d' he))

/-! ## Lemmas on well-formed records -/

theorem includesL_iff (needle : List Char) :
    ∀ hay : List Char, includesL needle hay = true ↔ needle <:+: hay := by
  intro hay
  induction hay with
  | nil => simp [includesL, List.isPrefixOf_iff_prefix]
  | cons c hay ih =>
    simp only [includesL, Bool.or_eq_true, ih, List.isPrefixOf_iff_prefix]
    exact List.infix_cons_iff.symm

theorem mem_stageOrder (d : Dim) : d ∈ stageOrder := by
  cases d <;> simp [stageOrder]

theorem isStr_iff (v : JsVal) : v.isStr = true ↔ ∃ s, v = .str s := by
  cases v <;> simp [JsVal.isStr]

theorem substrPred_str (lower : String → String) (c : Filters) (r : Record) (d : Dim)
    (s : String) (h : r.get d = .str s) :
    substrPred lower c d r = .ok (decide ((lower (c.get d)).data <:+: (lower s).data)) := by
  simp only [substrPred, h, JsVal.toLowerCase, includes]
  congr 1
  rw [Bool.eq_iff_iff, includesL_iff]
  simp

theorem dimPred_wellFormed (lower : String → String) (c : Filters) (r : Record)
    (hr : WellFormed r) (d : Dim) :
    dimPred lower c d r = .ok (decide (Matches lower c r d)) := by
  obtain ⟨hy, hs⟩ := hr
  by_cases hd : d = .endYear
  · subst hd
    cases hv : r.end_year <;>
      simp_all [dimPred, endYearPred, Matches, JsVal.toStringMethod, JsVal.toStr,
        JsVal.isNum, JsVal.isStr]
  · obtain ⟨s, hs⟩ := (isStr_iff _).1 (hs d hd)
    have h := substrPred_str lower c r d s hs
    cases d <;> simp_all [dimPred, Matches, JsVal.toStr]

theorem passes_iff_satisfies (lower : String → String) (c : Filters) (r : Record)
    (hr : WellFormed r) :
    passes lower c stageOrder r = decide (Satisfies lower c r) := by
  rw [Bool.eq_iff_iff]
  simp only [passes, List.all_eq_true, Bool.or_eq_true, decide_eq_true_eq, Satisfies,
    dimPred_wellFormed lower c r hr, Except.ok.injEq]
  constructor
  · intro h d
    exact h d (mem_stageOrder d)
  · intro h d _
    exact h d

theorem applyFilters_eq_filter (lower : String → String) (data : List Record) (c : Filters)
    (h : ∀ r ∈ data, WellFormed r) :
    applyFilters lower data c = .ok (data.filter (fun r => decide (Satisfies lower c r))) := by
  rw [applyFilters_eq_runStages, runStages_eq_filter]
  · congr 1
    apply List.filter_congr
    intro r hr
    exact passes_iff_satisfies lower c r (h r hr)
  · intro x hx d _ _
    exact ⟨_, dimPred_wellFormed lower c x (h x hx) d⟩

/-! ## Lemmas on `newSet`, the default sort and group counts -/

theorem foldl_setAdd {α : Type} [DecidableEq α] (xs : List α) :
    ∀ acc : List α, acc.Nodup →
      (xs.foldl setAdd acc).Nodup ∧ ∀ v, v ∈ xs.foldl setAdd acc ↔ v ∈ acc ∨ v ∈ xs := by
  induction xs with
  | nil => intro acc h; simp [h]
  | cons x xs ih =>
    intro acc h
    have hadd : (setAdd acc x).Nodup := by
      unfold setAdd
      split
      · exact h
      · rename_i hx
        exact List.Nodup.append h (List.nodup_singleton x) (by simpa using hx)
    obtain ⟨hn, hm⟩ := ih (setAdd acc x) hadd
    refine ⟨by simpa using hn, ?_⟩
    intro v
    simp only [List.foldl_cons, hm, List.mem_cons]
    unfold setAdd
    split
    · rename_i hx
      constructor
      · rintro (h1 | h1)
        · exact Or.inl h1
        · exact Or.inr (Or.inr h1)
      · rintro (h1 | rfl | h1)
        · exact Or.inl h1
        · exact Or.inl hx
        · exact Or.inr h1
    · simp only [List.mem_append, List.mem_singleton]
      tauto

theorem newSet_nodup {α : Type} [DecidableEq α] (xs : List α) : (newSet xs).Nodup :=
  (foldl_setAdd xs [] List.nodup_nil).1

theorem mem_newSet {α : Type} [DecidableEq α] (xs : List α) (v : α) :
    v ∈ newSet xs ↔ v ∈ xs := by
  have h := (foldl_setAdd xs [] List.nodup_nil).2 v
  simpa [newSet] using h

theorem length_filter_key (key : Record → JsVal) (l : List Record) (k : JsVal) :
    (l.filter (fun r => decide (key r = k))).length = (l.map key).count k := by
  rw [List.count, List.countP_map, List.countP_eq_length_filter]
  congr 2

theorem sum_group_counts (key : Record → JsVal) (l : List Record) :
    ((newSet (l.map key)).map
      (fun k => (l.filter (fun r => decide (key r = k))).length)).sum = l.length := by
  have hperm : (newSet (l.map key)).Perm (l.map key).dedup :=
    (List.perm_ext_iff_of_nodup (newSet_nodup _) (List.nodup_dedup _)).2
      (fun v => by rw [mem_newSet, List.mem_dedup])
  have hfun : (fun k => (l.filter (fun r => decide (key r = k))).length)
      = fun k => (l.map key).count k := by
    funext k
    exact length_filter_key key l k
  rw [hfun, (hperm.map _).sum_eq, List.sum_map_count_dedup_eq_length, List.length_map]

theorem mem_jsSort (xs : List JsVal) (v : JsVal) : v ∈ jsSort xs ↔ v ∈ xs :=
  (List.perm_insertionSort _ xs).mem_iff

theorem mem_optionsOf (result : List Record) (d : Dim) (v : JsVal) :
    v ∈ optionsOf result d ↔ ∃ r ∈ result, r.get d = v := by
  simp [optionsOf, mem_jsSort, mem_newSet]

theorem deriveFilterOptions_get (result : List Record) (d : Dim) :
    (deriveFilterOptions result).get d = optionsOf result d := by
  cases d <;> rfl

theorem dimPred_undefined (lower : String → String) (c : Filters) (r : Record) (d : Dim)
    (h : r.get d = .undefined) : dimPred lower c d r = .error .typeError := by
  cases d <;>
    simp_all [dimPred, endYearPred, substrPred, Record.get, JsVal.toStringMethod,
      JsVal.toLowerCase]

theorem satisfies_option (lower : String → String) (r : Record) (hr : WellFormed r) (d : Dim) :
    Satisfies lower (initialFilters.set d (optionText (r.get d))) r := by
  obtain ⟨hy, hs⟩ := hr
  intro d'
  by_cases hdd : d' = d
  · subst hdd
    right
    by_cases hd : d' = .endYear
    · subst hd
      cases hv : r.end_year <;>
        simp_all [Matches, Filters.set, Filters.get, Record.get, optionText, JsVal.toStr,
          JsVal.isNum, JsVal.isStr]
    · obtain ⟨s, hs⟩ := (isStr_iff _).1 (hs d' hd)
      cases d' <;>
        simp_all [Matches, Filters.set, Filters.get, Record.get, optionText, JsVal.toStr,
          List.infix_refl]
  · left
    cases d <;> cases d' <;> simp_all [Filters.set, Filters.get, initialFilters]

theorem groupCounts_newSet (key : Record → JsVal) (fd : List Record) :
    GroupCounts key fd (newSet (fd.map key))
      ((newSet (fd.map key)).map
        (fun k => (fd.filter (fun r => decide (key r = k))).length)) := by
  refine ⟨newSet_nodup _, ?_, by simp, ?_, sum_group_counts key fd⟩
  · intro v
    simp [mem_newSet]
  · intro i v hv
    simp [List.getElem?_map, hv, List.countP_eq_length_filter]

theorem unitsLe_total : ∀ a b : List Nat, unitsLe a b = true ∨ unitsLe b a = true := by
  intro a
  induction a with
  | nil => intro b; simp [unitsLe]
  | cons x xs ih =>
    intro b
    cases b with
    | nil => simp [unitsLe]
    | cons y ys =>
      simp only [unitsLe, Bool.or_eq_true, Bool.and_eq_true, decide_eq_true_eq]
      rcases Nat.lt_trichotomy x y with h | h | h
      · exact Or.inl (Or.inl h)
      · rcases ih ys with h' | h'
        · exact Or.inl (Or.inr ⟨h, h'⟩)
        · exact Or.inr (Or.inr ⟨h.symm, h'⟩)
      · exact Or.inr (Or.inl h)

theorem unitsLe_trans : ∀ a b c : List Nat,
    unitsLe a b = true → unitsLe b c = true → unitsLe a c = true := by
  intro a
  induction a with
  | nil => intro b c _ _; simp [unitsLe]
  | cons x xs ih =>
    intro b c hab hbc
    cases b with
    | nil => simp [unitsLe] at hab
    | cons y ys =>
      cases c with
      | nil => simp [unitsLe] at hbc
      | cons z zs =>
        simp only [unitsLe, Bool.or_eq_true, Bool.and_eq_true, decide_eq_true_eq] at hab hbc ⊢
        rcases hab with h1 | ⟨h1, h1'⟩
        · rcases hbc with h2 | ⟨h2, _⟩
          · exact Or.inl (Nat.lt_trans h1 h2)
          · exact Or.inl (h2 ▸ h1)
        · rcases hbc with h2 | ⟨h2, h2'⟩
          · exact Or.inl (h1 ▸ h2)
          · exact Or.inr ⟨h1.trans h2, ih ys zs h1' h2'⟩

theorem sortLe_total (a b : JsVal) : sortLe a b = true ∨ sortLe b a = true := by
  cases a <;> cases b <;> first | exact unitsLe_total _ _ | simp [sortLe]

theorem sortLe_trans (a b c : JsVal) (hab : sortLe a b = true) (hbc : sortLe b c = true) :
    sortLe a c = true := by
  cases a <;> cases b <;> cases c <;> simp_all [sortLe] <;>
    exact unitsLe_trans _ _ _ hab hbc

/-! ## Lemmas on double arithmetic -/

theorem log2Aux_spec : ∀ (fuel n : Nat), n ≤ fuel → n ≠ 0 →
    2 ^ log2Aux fuel n ≤ n ∧ n < 2 ^ (log2Aux fuel n + 1) := by
  intro fuel
  induction fuel with
  | zero => intro n h h0; omega
  | succ fuel ih =>
    intro n h h0
    by_cases h2 : 2 ≤ n
    · have hdiv : n / 2 ≤ fuel := by omega
      have hne : n / 2 ≠ 0 := by omega
      obtain ⟨hl, hu⟩ := ih (n / 2) hdiv hne
      simp only [log2Aux, h2, if_true]
      constructor
      · rw [pow_succ]; omega
      · rw [pow_succ]; omega
    · have h1 : n = 1 := by omega
      subst h1
      simp [log2Aux]

theorem ilog2_spec (n : Nat) (h0 : n ≠ 0) : 2 ^ ilog2 n ≤ n ∧ n < 2 ^ (ilog2 n + 1) :=
  log2Aux_spec n n (Nat.le_refl n) h0

theorem roundHalfEven_one (n : Nat) : roundHalfEven n 1 = n := by
  simp [roundHalfEven, Nat.mod_one]

theorem roundMag_int (p : Nat) (h0 : p ≠ 0) (hp : p ≤ 2 ^ 53) :
    ∃ m s, roundMag p 1 = some (m, s) ∧ scale m s = (p : ℚ) := by
  obtain ⟨hl, hu⟩ := ilog2_spec p h0
  have hL : ilog2 p ≤ 53 := by
    by_contra hcon
    have h54 : 2 ^ 54 ≤ 2 ^ ilog2 p := Nat.pow_le_pow_right (by decide) (by omega)
    omega
  have h1 : ilog2 1 = 0 := by decide
  have hfl : floorLog2 p 1 = (ilog2 p : Int) := by
    simp [floorLog2, h1, hl]
  have hmax : max (ilog2 p : Int) (-1022) = (ilog2 p : Int) := max_eq_left (by omega)
  by_cases h52 : ilog2 p < 52
  · have hs : ¬ (0 : Int) ≤ (ilog2 p : Int) - 52 := by omega
    have hto : (-((ilog2 p : Int) - 52)).toNat = 52 - ilog2 p := by omega
    have hov : ¬ ((1023 : Int) < (ilog2 p : Int) ∨ ((ilog2 p : Int) = 1023 ∧
        p * 2 ^ (52 - ilog2 p) = 2 ^ 53)) := by omega
    refine ⟨p * 2 ^ (52 - ilog2 p), (ilog2 p : Int) - 52, ?_, ?_⟩
    · simp only [roundMag, hfl, hmax, hs, if_false, hto, roundHalfEven_one]
      rw [if_neg hov]
    · simp only [scale, hs, if_false, hto]
      push_cast
      field_simp
  · have hs : (0 : Int) ≤ (ilog2 p : Int) - 52 := by omega
    have hto : ((ilog2 p : Int) - 52).toNat = ilog2 p - 52 := by omega
    by_cases h53 : ilog2 p = 53
    · have hp53 : p = 2 ^ 53 := by
        rw [h53] at hl
        omega
      subst hp53
      have hm : roundHalfEven (2 ^ 53) (1 * 2 ^ (53 - 52)) = 2 ^ 52 := by decide
      refine ⟨2 ^ 52, 1, ?_, ?_⟩
      · simp only [roundMag, hfl, hmax, hs, if_true, hto, h53]
        norm_num
        decide
      · simp only [scale]
        norm_num
    · have h52' : ilog2 p = 52 := by omega
      refine ⟨p, 0, ?_, ?_⟩
      · simp only [roundMag, hfl, hmax, hs, if_true, hto, h52']
        simp [roundHalfEven_one]
      · simp [scale]

theorem roundF64_intCast (z : Int) (hz : z.natAbs ≤ 2 ^ 53) : roundF64 (z : ℚ) = .fin (z : ℚ) := by
  by_cases h0 : z = 0
  · subst h0
    simp [roundF64]
  · have hq : ((z : ℚ) = 0) = False := by simp [h0]
    have hp0 : z.natAbs ≠ 0 := by simpa using h0
    obtain ⟨m, s, hm, hs⟩ := roundMag_int z.natAbs hp0 hz
    simp only [roundF64, hq, if_false, Rat.num_intCast, Rat.den_intCast, hm, hs]
    congr 1
    by_cases hneg : z < 0
    · have hcast : ((z : ℚ) < 0) := by exact_mod_cast hneg
      simp only [hcast, if_true]
      rw [Nat.cast_natAbs, abs_of_neg hneg]
      push_cast
      ring
    · have hcast : ¬ ((z : ℚ) < 0) := by
        intro h
        exact hneg (by exact_mod_cast h)
      simp only [hcast, if_false]
      rw [Nat.cast_natAbs, abs_of_nonneg (not_lt.1 hneg)]

theorem foldl_add_int (zs : List Int) :
    ∀ a : Int, a.natAbs + (zs.map Int.natAbs).sum ≤ 2 ^ 53 →
      (zs.map (fun (z : Int) => F64.fin (z : ℚ))).foldl F64.add (.fin (a : ℚ))
        = .fin ((a + zs.sum : Int) : ℚ) := by
  induction zs with
  | nil => intro a _; simp
  | cons z zs ih =>
    intro a h
    simp only [List.map_cons, List.sum_cons] at h
    have hstep : F64.add (.fin (a : ℚ)) (.fin (z : ℚ)) = .fin ((a + z : Int) : ℚ) := by
      have hb : (a + z).natAbs ≤ 2 ^ 53 := by omega
      have hr := roundF64_intCast (a + z) hb
      simp only [F64.add]
      rw [← hr]
      push_cast
      rfl
    have hrest := ih (a + z) (by omega)
    simp only [List.map_cons, List.foldl_cons, hstep, hrest, List.sum_cons]
    congr 2
    ring

theorem roundF64_four_thirds :
    roundF64 (4 / 3) = .fin (6004799503160661 / 4503599627370496) := by
  have hn : (4 / 3 : ℚ).num = 4 := by norm_num
  have hd : (4 / 3 : ℚ).den = 3 := by norm_num
  have hm : roundMag (Int.natAbs 4) 3 = some (6004799503160661, -52) := by decide
  have h0 : ((4 / 3 : ℚ) = 0) = False := by norm_num
  have hneg : ((4 / 3 : ℚ) < 0) = False := by norm_num
  simp only [roundF64, h0, if_false, hn, hd]
  rw [hm]
  simp only [hneg, scale]
  norm_num
  rw [show Int.toNat 52 = 52 from rfl]
  norm_num

theorem likelihood_value (fd : List Record) (i : Nat) (v : JsVal)
    (hv : (getCountryLikelihoodLineChartData fd).labels[i]? = some v) :
    1 ≤ (fd.filter (fun r => decide (r.country = v))).length ∧
      ∀ values, (getCountryLikelihoodLineChartData fd).datasets
          = [{ label := some "Likelihood", data := values }] →
        values[i]? = some (jsDiv
          (((fd.filter (fun r => decide (r.country = v))).map (fun r => r.likelihood)).foldl
            F64.add (.fin 0))
          (fd.filter (fun r => decide (r.country = v))).length) := by
  have hv' : (newSet (fd.map (fun item => item.country)))[i]? = some v := hv
  have hmem : v ∈ newSet (fd.map (fun item => item.country)) := List.getElem?_mem hv'
  rw [mem_newSet, List.mem_map] at hmem
  obtain ⟨r, hr, hrv⟩ := hmem
  have hin : r ∈ fd.filter (fun r => decide (r.country = v)) :=
    List.mem_filter.2 ⟨hr, by simp [hrv]⟩
  refine ⟨List.length_pos_of_mem hin, ?_⟩
  intro values hvals
  simp only [getCountryLikelihoodLineChartData, List.cons.injEq, and_true] at hvals
  have hdata := congrArg Dataset.data hvals
  simp only at hdata
  rw [← hdata, List.getElem?_map, hv', Option.map_some', List.foldl_map]

theorem natAbs_sum_le (zs : List Int) : zs.sum.natAbs ≤ (zs.map Int.natAbs).sum := by
  induction zs with
  | nil => simp
  | cons z zs ih =>
    simp only [List.sum_cons, List.map_cons]
    omega

theorem jsDiv_int (zs : List Int) (n : Nat) (hn : n ≠ 0)
    (hsum : (zs.map Int.natAbs).sum ≤ 2 ^ 53) :
    jsDiv ((zs.map (fun (z : Int) => F64.fin (z : ℚ))).foldl F64.add (.fin 0)) n
        = roundF64 ((zs.sum : ℚ) / (n : ℚ)) ∧
      ∀ m : Int, zs.sum = m * n →
        jsDiv ((zs.map (fun (z : Int) => F64.fin (z : ℚ))).foldl F64.add (.fin 0)) n
          = .fin (m : ℚ) := by
  have hfold := foldl_add_int zs 0 (by simpa using hsum)
  simp only [Int.cast_zero, zero_add] at hfold
  have hdiv : jsDiv ((zs.map (fun (z : Int) => F64.fin (z : ℚ))).foldl F64.add (.fin 0)) n
      = roundF64 ((zs.sum : ℚ) / (n : ℚ)) := by
    rw [hfold]
    simp only [jsDiv, hn, if_false]
  refine ⟨hdiv, ?_⟩
  intro m hm
  have hle := natAbs_sum_le zs
  have hmabs : m.natAbs ≤ 2 ^ 53 := by
    have h1 : zs.sum.natAbs = m.natAbs * n := by
      rw [hm, Int.natAbs_mul, Int.natAbs_ofNat]
    have h2 : m.natAbs ≤ m.natAbs * n := Nat.le_mul_of_pos_right _ (Nat.pos_of_ne_zero hn)
    omega
  have hq : (zs.sum : ℚ) / (n : ℚ) = (m : ℚ) := by
    have hn' : (n : ℚ) ≠ 0 := by exact_mod_cast hn
    rw [hm]
    push_cast
    field_simp
  rw [hdiv, hq]
  exact roundF64_intCast m hmabs

/-! ## The claims -/

/-- C1: on records with all seven dimension fields present, `applyFilters` returns
exactly the records that satisfy every non-empty criterion (exact text match
for `endYear`, case-insensitive substring match for the six others), in their
original order: its result is the input filtered by `Satisfies`. -/
theorem applyFilters_exact (lower : String → String) (data : List Record) (c : Filters)
    (h : ∀ r ∈ data, WellFormed r) :
    applyFilters lower data c = .ok (data.filter (fun r => decide (Satisfies lower c r))) :=
  applyFilters_eq_filter lower data c h

/-- Witness of C1 on the scenario of the specification, criterion `topic = "ENERGY"`. -/
theorem applyFilters_exact_witness :
    (∀ r ∈ [recChina, recFrance], WellFormed r) ∧
      applyFilters asciiLower [recChina, recFrance] { initialFilters with topic := "ENERGY" }
        = .ok ([recChina, recFrance].filter (fun r =>
            decide (Satisfies asciiLower { initialFilters with topic := "ENERGY" } r))) :=
  ⟨by decide, applyFilters_exact asciiLower _ _ (by decide)⟩

/-- The scenario of the specification: `topic = "ENERGY"` keeps both records and
`endYear = "2020"` keeps exactly the first. -/
theorem applyFilters_scenario :
    applyFilters asciiLower [recChina, recFrance] { initialFilters with topic := "ENERGY" }
        = .ok [recChina, recFrance] ∧
      applyFilters asciiLower [recChina, recFrance] { initialFilters with endYear := "2020" }
        = .ok [recChina] := by
  decide

/-- C2, as stated, fails: on a record without `country` and the criterion
`country = "china"`, `applyFilters` throws a `TypeError`. -/
theorem applyFilters_missing_field_throws :
    applyFilters asciiLower [recNoCountry] { initialFilters with country := "china" }
      = .error .typeError := by
  decide

/-- C2, amended: when a record of the input lacks the field of a dimension whose
criterion is non-empty, `applyFilters` never returns a result containing that
record, and it throws a `TypeError` when that criterion is the only non-empty one. -/
theorem applyFilters_missing_field (lower : String → String) (data : List Record)
    (c : Filters) (r : Record) (d : Dim)
    (hr : r ∈ data) (hmiss : r.get d = .undefined) (hc : c.get d ≠ "") :
    (∀ out, applyFilters lower data c = .ok out → r ∉ out) ∧
      ((∀ d', d' ≠ d → c.get d' = "") → applyFilters lower data c = .error .typeError) := by
  have herr := dimPred_undefined lower c r d hmiss
  constructor
  · intro out hout hmem
    rw [applyFilters_eq_runStages] at hout
    have h := (runStages_ok_mem lower c stageOrder data out hout).2 r hmem d
      (mem_stageOrder d) hc
    rw [herr] at h
    cases h
  · intro hothers
    rw [applyFilters_eq_runStages]
    exact runStages_error lower c d r herr hc stageOrder data (mem_stageOrder d) hr
      (fun d' _ hne => hothers d' hne)

/-- Witness of the amended C2 on a record without `country`. -/
theorem applyFilters_missing_field_witness :
    (∀ out, applyFilters asciiLower [recNoCountry]
        { initialFilters with country := "china" } = .ok out → recNoCountry ∉ out) ∧
      ((∀ d', d' ≠ Dim.country →
          Filters.get { initialFilters with country := "china" } d' = "") →
        applyFilters asciiLower [recNoCountry] { initialFilters with country := "china" }
          = .error .typeError) :=
  applyFilters_missing_field asciiLower [recNoCountry]
    { initialFilters with country := "china" } recNoCountry Dim.country
    (by decide) (by decide) (by decide)

/-- A record without `country` that an earlier stage removes: no exception, and
the record is absent from the result. -/
theorem applyFilters_missing_field_removed_earlier :
    applyFilters asciiLower [recNoCountry]
      { initialFilters with topic := "water", country := "china" } = .ok [] := by
  decide

/-- C6: with every criterion empty, `applyFilters` returns the input unchanged. -/
theorem applyFilters_all_empty (lower : String → String) (data : List Record) (c : Filters)
    (h : ∀ d : Dim, c.get d = "") : applyFilters lower data c = .ok data := by
  have h1 := h .endYear
  have h2 := h .topic
  have h3 := h .region
  have h4 := h .country
  have h5 := h .pestle
  have h6 := h .source
  have h7 := h .sector
  simp only [Filters.get] at h1 h2 h3 h4 h5 h6 h7
  simp [applyFilters, stage, h1, h2, h3, h4, h5, h6, h7, bind, Except.bind]

/-- Witness of C6 on the initial criteria and the scenario records. -/
theorem applyFilters_all_empty_witness :
    (∀ d : Dim, initialFilters.get d = "") ∧
      applyFilters asciiLower [recChina, recFrance] initialFilters
        = .ok [recChina, recFrance] :=
  ⟨by decide, applyFilters_all_empty asciiLower _ initialFilters (by decide)⟩

/-- C7: on records with all dimension fields present, the result of `applyFilters`
is a sub-list of the input, and `applyFilters` with the same criteria maps that
result to itself. -/
theorem applyFilters_sublist_idempotent (lower : String → String) (data : List Record)
    (c : Filters) (h : ∀ r ∈ data, WellFormed r) :
    ∃ out, applyFilters lower data c = .ok out ∧ out.Sublist data ∧
      applyFilters lower out c = .ok out := by
  refine ⟨data.filter (fun r => decide (Satisfies lower c r)),
    applyFilters_eq_filter lower data c h, List.filter_sublist data, ?_⟩
  rw [applyFilters_eq_filter lower _ c (fun r hr => h r (List.mem_of_mem_filter hr)),
    List.filter_filter]
  simp

/-- Witness of C7 on the scenario records and the criterion `endYear = "2020"`. -/
theorem applyFilters_sublist_idempotent_witness :
    (∀ r ∈ [recChina, recFrance], WellFormed r) ∧
      ∃ out, applyFilters asciiLower [recChina, recFrance]
          { initialFilters with endYear := "2020" } = .ok out ∧
        out.Sublist [recChina, recFrance] ∧
        applyFilters asciiLower out { initialFilters with endYear := "2020" } = .ok out :=
  ⟨by decide, applyFilters_sublist_idempotent asciiLower _ _ (by decide)⟩

/-- C10: on records with all dimension fields present, choosing any option `v` of
any dimension as the only criterion gives a non-empty result that contains
every record whose value for that dimension is `v`. -/
theorem applyFilters_option_nonempty (lower : String → String) (data : List Record)
    (h : ∀ r ∈ data, WellFormed r) (d : Dim) (v : JsVal)
    (hv : v ∈ (deriveFilterOptions data).get d) :
    ∃ out, applyFilters lower data (initialFilters.set d (optionText v)) = .ok out ∧
      out ≠ [] ∧ ∀ r ∈ data, r.get d = v → r ∈ out := by
  refine ⟨_, applyFilters_eq_filter lower data _ h, ?_, ?_⟩
  · rw [deriveFilterOptions_get, mem_optionsOf] at hv
    obtain ⟨r, hr, hrv⟩ := hv
    refine List.ne_nil_of_mem (List.mem_filter.2 ⟨hr, ?_⟩)
    rw [← hrv]
    simpa using satisfies_option lower r (h r hr) d
  · intro r hr hrv
    rw [List.mem_filter]
    refine ⟨hr, ?_⟩
    rw [← hrv]
    simpa using satisfies_option lower r (h r hr) d

/-- Witness of C10 on the scenario records and the year option `2021`. -/
theorem applyFilters_option_nonempty_witness :
    (∀ r ∈ [recChina, recFrance], WellFormed r) ∧
      JsVal.num 2021 ∈ (deriveFilterOptions [recChina, recFrance]).get Dim.endYear ∧
      ∃ out, applyFilters asciiLower [recChina, recFrance]
          (initialFilters.set Dim.endYear (optionText (JsVal.num 2021))) = .ok out ∧
        out ≠ [] ∧ ∀ r ∈ [recChina, recFrance], r.get Dim.endYear = JsVal.num 2021 → r ∈ out :=
  ⟨by decide, by decide,
    applyFilters_option_nonempty asciiLower _ (by decide) Dim.endYear (JsVal.num 2021)
      (by decide)⟩

/-- C4: the doughnut and the topic chart each carry one label per distinct key
value with an index-aligned count, and the counts add up to the number of
records of the filtered view. -/
theorem region_topic_counts (fd : List Record) :
    (∃ counts, (getDoughnutChartData fd).datasets = [{ label := none, data := counts }] ∧
        GroupCounts (fun r => r.region) fd (getDoughnutChartData fd).labels counts) ∧
      ∃ counts, (getTopicChartData fd).datasets = [{ label := some "Topics", data := counts }] ∧
        GroupCounts (fun r => r.topic) fd (getTopicChartData fd).labels counts :=
  ⟨⟨_, rfl, groupCounts_newSet (fun r => r.region) fd⟩,
    ⟨_, rfl, groupCounts_newSet (fun r => r.topic) fd⟩⟩

/-- The scenario of the specification: the region distribution of the two
records has two groups, each with count 1. -/
theorem region_scenario :
    getDoughnutChartData [recChina, recFrance]
      = { labels := [.str "Asia", .str "Europe"],
          datasets := [{ label := none, data := [1, 1] }] } := by
  decide

/-- C5, as stated, fails: for one country with likelihoods 1, 1 and 2 the chart
value is the double `6004799503160661 / 2 ^ 52`, not the mean `4 / 3`. -/
theorem country_likelihood_not_exact_mean :
    ∃ values, (getCountryLikelihoodLineChartData [recOneA, recOneB, recTwo]).datasets
        = [{ label := some "Likelihood", data := values }] ∧
      values[0]? = some (.fin (6004799503160661 / 4503599627370496)) ∧
      values[0]? ≠ some (.fin ((1 + 1 + 2) / 3)) := by
  have hval := (likelihood_value [recOneA, recOneB, recTwo] 0 (.str "China") (by decide)).2 _ rfl
  have hfilter : [recOneA, recOneB, recTwo].filter (fun r => decide (r.country = .str "China"))
      = [recOneA, recOneB, recTwo] := by decide
  have hmap : [recOneA, recOneB, recTwo].map (fun r => r.likelihood)
      = [(1 : Int), 1, 2].map (fun (z : Int) => F64.fin (z : ℚ)) := by
    simp [recOneA, recOneB, recTwo, mkRecord]
  have hdiv := (jsDiv_int [1, 1, 2] 3 (by decide) (by decide)).1
  rw [hfilter, hmap] at hval
  have hlen : [recOneA, recOneB, recTwo].length = 3 := rfl
  rw [hlen, hdiv] at hval
  have hq : (([(1 : Int), 1, 2].sum : Int) : ℚ) / ((3 : Nat) : ℚ) = 4 / 3 := by norm_num
  rw [hq, roundF64_four_thirds] at hval
  refine ⟨_, rfl, hval, ?_⟩
  rw [hval]
  norm_num

/-- C5, amended: the likelihood chart has one label per distinct country, and the
number of that country's records is at least 1.  The value at a label's index
is the double quotient of the double sum (from 0, left to right) of the
likelihoods of that country's records by their number.  When the likelihoods
are integers whose absolute values add up to at most `2 ^ 53`, it is the double
nearest to the exact sum divided by the number, and it is that exact mean when
the mean is an integer; likelihoods 40 and 60 give exactly 50. -/
theorem country_likelihood_mean (fd : List Record) :
    (getCountryLikelihoodLineChartData fd).labels.Nodup ∧
      (∀ v, v ∈ (getCountryLikelihoodLineChartData fd).labels ↔ ∃ r ∈ fd, r.country = v) ∧
      ∃ values, (getCountryLikelihoodLineChartData fd).datasets
          = [{ label := some "Likelihood", data := values }] ∧
        values.length = (getCountryLikelihoodLineChartData fd).labels.length ∧
        ∀ (i : Nat) (v : JsVal), (getCountryLikelihoodLineChartData fd).labels[i]? = some v →
          1 ≤ (fd.filter (fun r => decide (r.country = v))).length ∧
          values[i]? = some (jsDiv
            (((fd.filter (fun r => decide (r.country = v))).map (fun r => r.likelihood)).foldl
              F64.add (.fin 0))
            (fd.filter (fun r => decide (r.country = v))).length) ∧
          (∀ zs : List Int,
            (fd.filter (fun r => decide (r.country = v))).map (fun r => r.likelihood)
              = zs.map (fun (z : Int) => F64.fin (z : ℚ)) →
            (zs.map Int.natAbs).sum ≤ 2 ^ 53 →
            values[i]? = some (roundF64 ((zs.sum : ℚ) / (zs.length : ℚ))) ∧
            ∀ m : Int, zs.sum = m * zs.length → values[i]? = some (.fin (m : ℚ))) ∧
          ((fd.filter (fun r => decide (r.country = v))).map (fun r => r.likelihood)
              = [.fin 40, .fin 60] →
            values[i]? = some (.fin 50)) := by
  refine ⟨newSet_nodup _, ?_, _, rfl, by simp [getCountryLikelihoodLineChartData], ?_⟩
  · intro v
    simp [getCountryLikelihoodLineChartData, mem_newSet]
  · intro i v hv
    obtain ⟨hpos, hval⟩ := likelihood_value fd i v hv
    have hval := hval _ rfl
    have hint : ∀ zs : List Int,
        (fd.filter (fun r => decide (r.country = v))).map (fun r => r.likelihood)
          = zs.map (fun (z : Int) => F64.fin (z : ℚ)) →
        (zs.map Int.natAbs).sum ≤ 2 ^ 53 →
        (List.map
            (fun country =>
              jsDiv
                ((fd.filter (fun item => decide (item.country = country))).foldl
                  (fun sum item => F64.add sum item.likelihood) (.fin 0))
                (fd.filter (fun item => decide (item.country = country))).length)
            (newSet (fd.map (fun item => item.country))))[i]?
            = some (roundF64 ((zs.sum : ℚ) / (zs.length : ℚ))) ∧
          ∀ m : Int, zs.sum = m * zs.length →
            (List.map
              (fun country =>
                jsDiv
                  ((fd.filter (fun item => decide (item.country = country))).foldl
                    (fun sum item => F64.add sum item.likelihood) (.fin 0))
                  (fd.filter (fun item => decide (item.country = country))).length)
              (newSet (fd.map (fun item => item.country))))[i]? = some (.fin (m : ℚ)) := by
      intro zs hzs hsum
      have hlen : (fd.filter (fun r => decide (r.country = v))).length = zs.length := by
        have h := congrArg List.length hzs
        simpa using h
      have hne : zs.length ≠ 0 := by omega
      obtain ⟨h1, h2⟩ := jsDiv_int zs zs.length hne hsum
      rw [hzs, hlen] at hval
      refine ⟨by rw [hval, h1], ?_⟩
      intro m hm
      rw [hval, h2 m hm]
    refine ⟨hpos, hval, hint, ?_⟩
    intro h4060
    have h := (hint [40, 60] (by simpa using h4060) (by decide)).2 50 (by decide)
    simpa using h

/-- Witness of the amended C5: two records of one country with likelihoods 40 and
60 give the single value 50. -/
theorem country_likelihood_mean_witness :
    ∃ values, (getCountryLikelihoodLineChartData [recChina, recChina60]).datasets
        = [{ label := some "Likelihood", data := values }] ∧ values[0]? = some (.fin 50) := by
  obtain ⟨_, _, values, hds, _, hall⟩ := country_likelihood_mean [recChina, recChina60]
  exact ⟨values, hds, (hall 0 (.str "China") (by decide)).2.2.2 (by decide)⟩

/-- C8, as stated, fails: for a single record the bubble of its source has `x = 1`,
while the source stands at index 0 of the distinct sources. -/
theorem bubble_x_not_index :
    ∃ series ∈ getBubbleChartData [recChina], ∃ p ∈ series.data,
      p.x ≠ (newSet ([recChina].map (fun item => item.source))).indexOf series.label := by
  decide

/-- C8, amended: the bubble chart has one series per distinct source, in the order
of the distinct sources; the series at index `i` is labelled with the source at
index `i` and holds the single point with `x = i + 1`, `y` the number of records
of that source and `r = 2 * y`. -/
theorem bubble_series (fd : List Record) :
    (newSet (fd.map (fun item => item.source))).Nodup ∧
      (∀ v, v ∈ newSet (fd.map (fun item => item.source)) ↔ ∃ r ∈ fd, r.source = v) ∧
      (getBubbleChartData fd).length = (newSet (fd.map (fun item => item.source))).length ∧
      ∀ (i : Nat) (v : JsVal), (newSet (fd.map (fun item => item.source)))[i]? = some v →
        (getBubbleChartData fd)[i]? = some
          { label := v
            data := [{ x := i + 1
                       y := some (fd.countP (fun r => decide (r.source = v)))
                       r := some (2 * fd.countP (fun r => decide (r.source = v))) }] } := by
  refine ⟨newSet_nodup _, ?_, by simp [getBubbleChartData], ?_⟩
  · intro v
    simp [mem_newSet]
  · intro i v hv
    simp [getBubbleChartData, List.getElem?_mapIdx, List.getElem?_map, hv,
      List.countP_eq_length_filter, Nat.mul_comm]

/-- Witness of the amended C8 on the scenario records. -/
theorem bubble_series_witness :
    (getBubbleChartData [recChina, recFrance])[1]? = some
      { label := .str "S2", data := [{ x := 2, y := some 1, r := some 2 }] } :=
  (bubble_series [recChina, recFrance]).2.2.2 1 (.str "S2") (by decide)

/-- C9: on the empty filtered view every aggregator returns empty chart data:
no label, no value, and no bubble series. -/
theorem aggregators_empty :
    getLineChartData []
        = { labels := [], datasets := [{ label := some "Intensity", data := [] }] } ∧
      getBarChartData []
        = { labels := [], datasets := [{ label := some "Relevance", data := [] }] } ∧
      getDoughnutChartData []
        = { labels := [], datasets := [{ label := none, data := [] }] } ∧
      getTopicChartData []
        = { labels := [], datasets := [{ label := some "Topics", data := [] }] } ∧
      getBubbleChartData [] = [] ∧
      getCountryLikelihoodLineChartData []
        = { labels := [], datasets := [{ label := some "Likelihood", data := [] }] } :=
  ⟨rfl, rfl, rfl, rfl, rfl, rfl⟩

/-- The option list of every dimension holds each distinct value of the dimension
exactly once and is ascending for the default comparison of `sort()`, which
puts `undefined` last and compares all other values by the code units of their
text. -/
theorem optionsOf_sorted_nodup (result : List Record) (d : Dim) :
    (optionsOf result d).Nodup ∧
      (∀ v, v ∈ optionsOf result d ↔ ∃ r ∈ result, r.get d = v) ∧
      (optionsOf result d).Sorted (fun a b => sortLe a b = true) := by
  refine ⟨?_, mem_optionsOf result d, ?_⟩
  · exact (List.perm_insertionSort _ _).nodup_iff.2 (newSet_nodup _)
  · exact @List.sorted_insertionSort _ (fun a b => sortLe a b = true) _
      ⟨sortLe_total⟩ ⟨sortLe_trans⟩ _

/-- C3 on the years 2020 and 999: the year options come out as `[2020, 999]`, the
larger year first, because `sort()` compares the decimal texts. -/
theorem endYearOptions_text_order :
    (deriveFilterOptions [recYear999, recChina]).endYearOptions = [.num 2020, .num 999] ∧
      (deriveFilterOptions [recChina, recYear999]).endYearOptions = [.num 2020, .num 999] := by
  decide

end Dashboard
